import Mathlib

/-!
Shallow embedding of the incremental chunked-summarization engine in
src/summarizer.py (azure-openai-doc-summarizer).

Text is modelled as a list of characters, so Python string slicing,
splitting and length arithmetic become list operations.  The remote
backend is modelled as an oracle: for the orchestration loop it maps the
request index and the request text to the returned summary text; for the
retry controller it maps the attempt index to the attempt's outcome
(either a returned completion text or a raised requests.RequestException
carrying a message).  The retry loop is driven by explicit fuel; a result
of `running` means the loop has not resolved within that much fuel.
-/

namespace Summarizer

/-- A summary paragraph (the atomic unit of retention and eviction). -/
abbrev Para := List Char

/-- Python `str.strip()`: drop whitespace from both ends. -/
def pyStrip (s : List Char) : List Char :=
  ((s.dropWhile Char.isWhitespace).reverse.dropWhile Char.isWhitespace).reverse

/-- Python `s.split("\x5cn\x5cn")`: scan left to right, cutting at each
non-overlapping occurrence of a blank line (two newline characters). -/
def splitGo (acc : List Char) : List Char → List (List Char)
  | [] => [acc.reverse]
  | [c] => splitGo (c :: acc) []
  | c :: d :: rest =>
    if c = '\n' && d = '\n' then acc.reverse :: splitGo [] rest
    else splitGo (c :: acc) (d :: rest)

/-- Lines 186-188: split the summary text on blank lines and strip each
paragraph. -/
def extract_summary_paragraphs (summary_text : List Char) : List Para :=
  (splitGo [] summary_text).map pyStrip

/-- Line 192: the configured context-window bound. -/
def max_context_paragraphs : ℕ := 3

/-- Lines 244-246: `while len(summary_paragraphs) > max_context_paragraphs:
out_f.write(summary_paragraphs.pop(0))`.  Returns the popped (written)
paragraphs in pop order together with the remaining list. -/
def evict_while : List Para → List Para × List Para
  | [] => ([], [])
  | p :: rest =>
    if rest.length + 1 > max_context_paragraphs then
      let r := evict_while rest
      (p :: r.1, r.2)
    else ([], p :: rest)

/-- Lines 242-247: the per-chunk context-window update.  If the summary is
non-empty (Python truthiness), the new summary's paragraphs are extracted,
the overflow beyond the bound is written out, and the remainder REPLACES
the previous window; an empty summary leaves the window unchanged.
Returns (new window, paragraphs written to output). -/
def window_update (prev : List Para) (summary : List Char) : List Para × List Para :=
  if summary.isEmpty then (prev, [])
  else
    let r := evict_while (extract_summary_paragraphs summary)
    (r.2, r.1)

/-- Python `sep.join(parts)`. -/
def joinSep (sep : List Char) : List (List Char) → List Char
  | [] => []
  | [p] => p
  | p :: q :: rest => p ++ sep ++ joinSep sep (q :: rest)

/-- Lines 231-235: the request text sent for one chunk.  For the
`transcribe` level the chunk is sent alone; otherwise the full current
window is joined and labelled, with no size-based trimming. -/
def buildRequest (transcribe : Bool) (window : List Para) (chunk : List Char) : List Char :=
  if transcribe then chunk
  else "[PREVIOUS_SUMMARY]\n\n".data ++ joinSep "\n\n".data window
    ++ "\n\n".data ++ "[CURRENT_CHUNK]\n\n".data ++ chunk

/-- Lines 220-228: chunk segmentation.  Slice `[offset, offset+chunk_size)`,
advance by the slice's actual length, stop when the produced slice is
empty. -/
def chunks (chunk_size : ℕ) (s : List Char) : List (List Char) :=
  if (s.take chunk_size).isEmpty then []
  else s.take chunk_size :: chunks chunk_size (s.drop chunk_size)
termination_by s.length
decreasing_by
  rename_i h
  simp only [List.isEmpty_iff, List.take_eq_nil_iff] at h
  push_neg at h
  have hlen : 0 < s.length := List.length_pos.mpr h.2
  have hC : chunk_size ≠ 0 := h.1
  simp only [List.length_drop]
  omega

/-- The observable state of one run of `summarize_document` (lines 191-260):
the context window, the paragraphs written to the output file in order, the
requests sent to the backend in order, the cursor `processed_chars`, the
progress values reported after each chunk, and the per-update lists of
evicted paragraphs. -/
structure RunState where
  window : List Para
  out : List Para
  requests : List (List Char)
  processed : ℕ
  progressEvents : List ℕ
  evTrace : List (List Para)
deriving DecidableEq

/-- Lines 192-193, 219: empty window, empty output file, cursor at zero. -/
def initState : RunState := ⟨[], [], [], 0, [], []⟩

/-- Lines 220-254, one iteration of the chunk loop on a non-empty chunk:
advance the cursor, build the request from the untrimmed window, obtain the
summary from the backend (modelled as an oracle of the request index and
request text), update the window, and record the progress value.  The
backend call is `process_text`; a run in which every chunk resolves to a
summary is modelled by the oracle returning that summary. -/
def chunkStep (transcribe : Bool) (backend : ℕ → List Char → List Char)
    (st : RunState) (chunk : List Char) : RunState :=
  let processed := st.processed + chunk.length
  let req := buildRequest transcribe st.window chunk
  let summary := backend st.requests.length req
  let r := window_update st.window summary
  { window := r.1
    out := st.out ++ r.2
    requests := st.requests ++ [req]
    processed := processed
    progressEvents := st.progressEvents ++ [processed]
    evTrace := st.evTrace ++ [r.2] }

/-- The chunk loop, iterated over the chunk list. -/
def runChunks (transcribe : Bool) (backend : ℕ → List Char → List Char)
    (st : RunState) : List (List Char) → RunState
  | [] => st
  | c :: cs => runChunks transcribe backend (chunkStep transcribe backend st c) cs

/-- Lines 257-259: `while previous_summary_paragraphs:
out_f.write(previous_summary_paragraphs.pop(0))` - the final flush drains
the window to output in order. -/
def flush_while (st : RunState) : RunState :=
  { st with out := st.out ++ st.window, window := [] }

/-- Lines 215-259: the whole run on already-extracted input text, for a run
in which every backend request resolves to a summary. -/
def summarize_document (transcribe : Bool) (backend : ℕ → List Char → List Char)
    (chunk_size : ℕ) (input_text : List Char) : RunState :=
  flush_while (runChunks transcribe backend initState (chunks chunk_size input_text))

/-- Line 253: `progress = (processed_chars / total_chars) * 100`, in exact
rational arithmetic. -/
def progressReport (total : ℕ) (p : ℕ) : ℚ := ((p : ℚ) / (total : ℚ)) * 100

/-- The sequence of progress percentages a run reports. -/
def progressPercents (total : ℕ) (st : RunState) : List ℚ :=
  st.progressEvents.map (progressReport total)

/-- Reference list of the cumulative cursor values, one per chunk. -/
def stepSums (start : ℕ) : List (List Char) → List ℕ
  | [] => []
  | c :: cs => (start + c.length) :: stepSums (start + c.length) cs

/-- Modelled from the spec, section 4.2: the append-then-evict window
update that the spec fixes as the contract - append the new paragraphs to
the existing window, then, if the count exceeds the maximum, evict the
`overflow = count - max` oldest paragraphs (in order) to output. -/
def specUpdate (prev : List Para) (summary : List Char) : List Para × List Para :=
  let ps := prev ++ extract_summary_paragraphs summary
  if ps.length > max_context_paragraphs then
    (ps.drop (ps.length - max_context_paragraphs), ps.take (ps.length - max_context_paragraphs))
  else (ps, [])

/-! ## The retry/backoff controller, `process_text` (lines 138-177) -/

/-- One backend attempt either returns a completion text or raises a
`requests.exceptions.RequestException` whose string is `msg`.  Any other
exception class is not distinguished by the code under proof. -/
inductive Outcome
  | success (text : List Char)
  | exc (msg : List Char)

/-- Terminal exceptional results of `process_text`. -/
inductive ProcError
  | unknownErrorMsg
  | unboundLocalE
  | timeoutAllRetriesFailed
  | rateLimitAllRetriesFailed
  | reraised (msg : List Char)
  | pyNone
deriving DecidableEq

/-- Result of running `process_text` with a given amount of fuel:
a summary, a raised error, or `running` when the loop has not resolved
within the fuel. -/
inductive ProcResult
  | ok (summary : List Char)
  | err (e : ProcError)
  | running
deriving DecidableEq

/-- Observable outcome of `process_text`: the result, how many
`create_summary` attempts were made, the sleeps performed (in seconds, in
order), and the final `retry_count`. -/
structure ProcState where
  result : ProcResult
  attempts : ℕ
  delays : List ℕ
  retry_count : ℕ
deriving DecidableEq

/-- Line 139. -/
def MAX_RETRIES : ℕ := 5

/-- Line 141. -/
def TIMEOUT_DELAY : ℕ := 5

/-- Line 146 and line 163: `"exceeded token rate limit" in str(...)`. -/
def rateLimitMarker : List Char := "exceeded token rate limit".data

/-- Lines 159 and 174: `"Request timed out" in str(e)`. -/
def timeoutMarker : List Char := "Request timed out".data

/-- The literal part of the pattern `Please retry after (\x5cd+)`. -/
def retryAfterPat : List Char := "Please retry after ".data

/-- Python `pat in s` (substring containment). -/
def containsSub (pat : List Char) : List Char → Bool
  | [] => pat.isEmpty
  | c :: rest => pat.isPrefixOf (c :: rest) || containsSub pat rest

/-- Numeric value of a digit string, as `int()` computes it. -/
def digitsVal (ds : List Char) : ℕ :=
  ds.foldl (fun n c => n * 10 + (c.toNat - '0'.toNat)) 0

/-- Lines 148 / 165: `re.search(r'Please retry after (\x5cd+)', msg)` -
the delay at the first position where the literal is followed by at least
one digit, else `none`. -/
def extractRetryDelay : List Char → Option ℕ
  | [] => none
  | c :: rest =>
    if retryAfterPat.isPrefixOf (c :: rest)
        && !(((c :: rest).drop retryAfterPat.length).takeWhile Char.isDigit).isEmpty then
      some (digitsVal (((c :: rest).drop retryAfterPat.length).takeWhile Char.isDigit))
    else extractRetryDelay rest

/-- Lines 173-177, reached when the while loop exits.  `eBound` models the
Python local `e`: in Python 3 the variable bound by `except ... as e` is
deleted again at the end of each except block, so whenever this code runs,
`e` is unbound and `str(e)` on line 174 raises UnboundLocalError.  The
tagged branches are kept for fidelity to lines 174-177 but are unreachable. -/
def postLoop (retry_count attempts : ℕ) (delays : List ℕ) (eBound : Option (List Char)) : ProcState :=
  if retry_count = MAX_RETRIES then
    match eBound with
    | none => ⟨.err .unboundLocalE, attempts, delays, retry_count⟩
    | some m =>
      if containsSub timeoutMarker m then
        ⟨.err .timeoutAllRetriesFailed, attempts, delays, retry_count⟩
      else ⟨.err .rateLimitAllRetriesFailed, attempts, delays, retry_count⟩
  else ⟨.err .pyNone, attempts, delays, retry_count⟩

/-- Lines 143-172: the retry loop.  `outcomes i` is what the i-th
`create_summary` call does.  Each iteration consumes one unit of fuel; the
loop body mirrors the source: a returned text carrying the rate-limit
marker sleeps the extracted delay and retries, or raises the unknown-error
exception when no delay is extractable; a RequestException containing the
timeout marker sleeps `TIMEOUT_DELAY` and retries; one containing the
rate-limit marker sleeps the extracted delay and retries, but when no
delay is extractable it falls through WITHOUT incrementing `retry_count`
or sleeping (the missing else-branch on lines 165-170); any other
RequestException is re-raised.  At the end of an except block the bound
exception variable is deleted (Python 3), modelled by passing `none`
onward as `eBound`. -/
def process_text_go (outcomes : ℕ → Outcome) :
    ℕ → ℕ → ℕ → List ℕ → Option (List Char) → ProcState
  | 0, retry_count, attempts, delays, eb =>
    if retry_count < MAX_RETRIES then ⟨.running, attempts, delays, retry_count⟩
    else postLoop retry_count attempts delays eb
  | fuel + 1, retry_count, attempts, delays, eb =>
    if retry_count < MAX_RETRIES then
      match outcomes attempts with
      | .success text =>
        if containsSub rateLimitMarker text then
          match extractRetryDelay text with
          | some d =>
            process_text_go outcomes fuel (retry_count + 1) (attempts + 1) (delays ++ [d]) eb
          | none => ⟨.err .unknownErrorMsg, attempts + 1, delays, retry_count⟩
        else ⟨.ok text, attempts + 1, delays, retry_count⟩
      | .exc msg =>
        if containsSub timeoutMarker msg then
          process_text_go outcomes fuel (retry_count + 1) (attempts + 1)
            (delays ++ [TIMEOUT_DELAY]) none
        else if containsSub rateLimitMarker msg then
          match extractRetryDelay msg with
          | some d =>
            process_text_go outcomes fuel (retry_count + 1) (attempts + 1) (delays ++ [d]) none
          | none => process_text_go outcomes fuel retry_count (attempts + 1) delays none
        else ⟨.err (.reraised msg), attempts + 1, delays, retry_count⟩
    else postLoop retry_count attempts delays eb

/-- `process_text` started in its initial state. -/
def process_text (outcomes : ℕ → Outcome) (fuel : ℕ) : ProcState :=
  process_text_go outcomes fuel 0 0 [] none

/-- A RequestException message carrying the rate-limit marker but no
extractable delay. -/
def rlNoDelayMsg : List Char := "exceeded token rate limit".data

/-- A backend whose first summary has two paragraphs and whose second has
one, used to exhibit window replacement. -/
def c2Backend : ℕ → List Char → List Char :=
  fun i _ => if i = 0 then "A\n\nB".data else "C".data

/-- A single paragraph of 20001 characters, larger than every size
constant configured in the program. -/
def bigPara : Para := List.replicate 20001 'a'

/-- A backend whose first summary is the single large paragraph. -/
def c3Backend : ℕ → List Char → List Char :=
  fun i _ => if i = 0 then bigPara else "ok".data

/-- The progress-tracking properties of one run: one progress value per
chunk; each value is the sum of the lengths of the chunks consumed so far;
the reported percentages are monotonically non-decreasing; and the last
percentage is exactly 100. -/
def c7Claim (tr : Bool) (backend : ℕ → List Char → List Char)
    (C : ℕ) (text : List Char) : Prop :=
  (summarize_document tr backend C text).progressEvents.length = (chunks C text).length
  ∧ (∀ i, i < (chunks C text).length →
      (summarize_document tr backend C text).progressEvents.getD i 0
        = (((chunks C text).take (i + 1)).map List.length).sum)
  ∧ (∀ i j, i ≤ j → j < (chunks C text).length →
      progressReport text.length
          ((summarize_document tr backend C text).progressEvents.getD i 0)
        ≤ progressReport text.length
          ((summarize_document tr backend C text).progressEvents.getD j 0))
  ∧ progressReport text.length
      ((summarize_document tr backend C text).progressEvents.getD
        ((chunks C text).length - 1) 0) = 100

/-! ## Helper lemmas -/

lemma repl_ne_nil {n : ℕ} (hn : n ≠ 0) (a : Char) : List.replicate n a ≠ [] := by
  intro h
  have h2 := congrArg List.length h
  simp only [List.length_replicate, List.length_nil] at h2
  exact hn h2

lemma chunks_nil (C : ℕ) : chunks C [] = [] := by
  rw [chunks]
  simp

lemma chunks_cons (C : ℕ) (s : List Char) (hC : 0 < C) (hs : s ≠ []) :
    chunks C s = s.take C :: chunks C (s.drop C) := by
  rw [chunks]
  simp [List.take_eq_nil_iff, hs, Nat.pos_iff_ne_zero.mp hC]

lemma chunks_join (C : ℕ) (hC : 0 < C) (s : List Char) : (chunks C s).flatten = s := by
  suffices h : ∀ n (s : List Char), s.length = n → (chunks C s).flatten = s from
    h s.length s rfl
  intro n
  induction n using Nat.strong_induction_on with
  | _ n ih =>
    intro s hn
    cases n with
    | zero =>
      have hs : s = [] := List.length_eq_zero.mp hn
      subst hs
      simp [chunks_nil]
    | succ m =>
      have hs : s ≠ [] := by
        intro h
        subst h
        simp at hn
      rw [chunks_cons C s hC hs]
      have hlt : (s.drop C).length < m + 1 := by
        rw [List.length_drop, hn]
        omega
      rw [List.flatten_cons, ih (s.drop C).length (by omega) (s.drop C) rfl]
      exact List.take_append_drop C s

lemma chunks_length (C : ℕ) (hC : 0 < C) (s : List Char) :
    (chunks C s).length = (s.length + C - 1) / C := by
  suffices h : ∀ n (s : List Char), s.length = n →
      (chunks C s).length = (s.length + C - 1) / C from h s.length s rfl
  intro n
  induction n using Nat.strong_induction_on with
  | _ n ih =>
    intro s hn
    cases n with
    | zero =>
      have hs : s = [] := List.length_eq_zero.mp hn
      subst hs
      rw [chunks_nil]
      simp only [List.length_nil]
      exact (Nat.div_eq_of_lt (by omega)).symm
    | succ m =>
      have hs : s ≠ [] := by
        intro h
        subst h
        simp at hn
      rw [chunks_cons C s hC hs]
      have hlt : (s.drop C).length < m + 1 := by
        rw [List.length_drop, hn]
        omega
      rw [List.length_cons, ih (s.drop C).length (by omega) (s.drop C) rfl,
        List.length_drop, hn]
      have hr : m + 1 + C - 1 = m + C := by omega
      rw [hr, Nat.add_div_right m hC]
      rcases Nat.lt_or_ge m C with hmC | hmC
      · have h1 : m + 1 - C + C - 1 = C - 1 := by omega
        rw [h1, Nat.div_eq_of_lt (show C - 1 < C by omega),
          Nat.div_eq_of_lt (show m < C from hmC)]
      · have h1 : m + 1 - C + C - 1 = m := by omega
        rw [h1]

lemma chunks_size_le (C : ℕ) (s : List Char) :
    ∀ c ∈ chunks C s, c.length ≤ C := by
  suffices h : ∀ n (s : List Char), s.length = n → ∀ c ∈ chunks C s, c.length ≤ C from
    h s.length s rfl
  intro n
  induction n using Nat.strong_induction_on with
  | _ n ih =>
    intro s hn c hc
    rcases Nat.eq_zero_or_pos C with hC | hC
    · subst hC
      rw [chunks] at hc
      simp at hc
    rcases eq_or_ne s [] with hs | hs
    · subst hs
      rw [chunks_nil] at hc
      simp at hc
    rw [chunks_cons C s hC hs] at hc
    rcases List.mem_cons.mp hc with h | h
    · subst h
      simp only [List.length_take]
      exact Nat.min_le_left C s.length
    · have hpos : 0 < s.length := List.length_pos.mpr hs
      exact ih (s.drop C).length (by rw [List.length_drop]; omega) (s.drop C) rfl c h

lemma chunks_full (C : ℕ) (hC : 0 < C) (s : List Char) :
    ∀ i, i + 1 < (chunks C s).length → ((chunks C s).getD i []).length = C := by
  suffices h : ∀ n (s : List Char), s.length = n →
      ∀ i, i + 1 < (chunks C s).length → ((chunks C s).getD i []).length = C from
    h s.length s rfl
  intro n
  induction n using Nat.strong_induction_on with
  | _ n ih =>
    intro s hn i hi
    rcases eq_or_ne s [] with hs | hs
    · subst hs
      rw [chunks_nil] at hi
      simp at hi
    rw [chunks_cons C s hC hs] at hi ⊢
    have hpos : 0 < s.length := List.length_pos.mpr hs
    cases i with
    | zero =>
      simp only [List.getD_cons_zero, List.length_take]
      simp only [List.length_cons] at hi
      have hne : chunks C (s.drop C) ≠ [] := by
        intro h
        rw [h] at hi
        simp at hi
      have hdrop : s.drop C ≠ [] := by
        intro h
        rw [h, chunks_nil] at hne
        exact hne rfl
      have : C < s.length := by
        by_contra hcon
        exact hdrop (List.drop_eq_nil_iff.mpr (by omega))
      omega
    | succ j =>
      simp only [List.getD_cons_succ]
      simp only [List.length_cons] at hi
      exact ih (s.drop C).length (by rw [List.length_drop]; omega) (s.drop C) rfl j
        (by omega)

lemma evict_while_eq (ps : List Para) :
    evict_while ps = (ps.take (ps.length - max_context_paragraphs),
      ps.drop (ps.length - max_context_paragraphs)) := by
  induction ps with
  | nil => simp [evict_while]
  | cons p rest ih =>
    rw [evict_while]
    rcases Nat.lt_or_ge max_context_paragraphs (rest.length + 1) with h | h
    · rw [if_pos h, ih]
      have h1 : (p :: rest).length - max_context_paragraphs
          = (rest.length - max_context_paragraphs) + 1 := by
        simp only [List.length_cons]
        omega
      rw [h1, List.take_succ_cons, List.drop_succ_cons]
    · rw [if_neg (by omega)]
      have h1 : (p :: rest).length - max_context_paragraphs = 0 := by
        simp only [List.length_cons]
        omega
      rw [h1, List.take_zero, List.drop_zero]

lemma window_update_of_ne (prev : List Para) (s : List Char) (hs : ¬ s.isEmpty) :
    window_update prev s
      = ((extract_summary_paragraphs s).drop
          ((extract_summary_paragraphs s).length - max_context_paragraphs),
        (extract_summary_paragraphs s).take
          ((extract_summary_paragraphs s).length - max_context_paragraphs)) := by
  rw [window_update, if_neg hs, evict_while_eq]

lemma window_update_len (prev : List Para) (s : List Char)
    (hprev : prev.length ≤ max_context_paragraphs) :
    (window_update prev s).1.length ≤ max_context_paragraphs := by
  by_cases hs : s.isEmpty
  · rw [window_update, if_pos hs]
    exact hprev
  · rw [window_update_of_ne prev s hs]
    simp only [List.length_drop]
    omega

lemma runChunks_window_le (tr : Bool) (backend : ℕ → List Char → List Char)
    (cs : List (List Char)) :
    ∀ st : RunState, st.window.length ≤ max_context_paragraphs →
      (runChunks tr backend st cs).window.length ≤ max_context_paragraphs := by
  induction cs with
  | nil =>
    intro st h
    exact h
  | cons c cs ih =>
    intro st h
    rw [runChunks]
    exact ih _ (window_update_len _ _ h)

lemma runChunks_out_ev (tr : Bool) (backend : ℕ → List Char → List Char)
    (cs : List (List Char)) :
    ∀ st : RunState, ∃ t,
      (runChunks tr backend st cs).evTrace = st.evTrace ++ t ∧
      (runChunks tr backend st cs).out = st.out ++ t.flatten := by
  induction cs with
  | nil =>
    intro st
    exact ⟨[], by simp [runChunks]⟩
  | cons c cs ih =>
    intro st
    rw [runChunks]
    obtain ⟨t, ht, ho⟩ := ih (chunkStep tr backend st c)
    refine ⟨(window_update st.window
      (backend st.requests.length (buildRequest tr st.window c))).2 :: t, ?_, ?_⟩
    · rw [ht]
      simp [chunkStep]
    · rw [ho]
      simp [chunkStep]

lemma runChunks_events (tr : Bool) (backend : ℕ → List Char → List Char)
    (cs : List (List Char)) :
    ∀ st : RunState,
      (runChunks tr backend st cs).progressEvents
        = st.progressEvents ++ stepSums st.processed cs ∧
      (runChunks tr backend st cs).processed
        = st.processed + (cs.map List.length).sum := by
  induction cs with
  | nil =>
    intro st
    simp [runChunks, stepSums]
  | cons c cs ih =>
    intro st
    rw [runChunks, stepSums]
    obtain ⟨h1, h2⟩ := ih (chunkStep tr backend st c)
    constructor
    · rw [h1]
      simp [chunkStep]
    · rw [h2]
      simp [chunkStep]
      omega

lemma runChunks_requests_snoc (tr : Bool) (backend : ℕ → List Char → List Char)
    (cs : List (List Char)) :
    ∀ st : RunState, ∃ t, (runChunks tr backend st cs).requests = st.requests ++ t := by
  induction cs with
  | nil =>
    intro st
    exact ⟨[], by simp [runChunks]⟩
  | cons c cs ih =>
    intro st
    rw [runChunks]
    obtain ⟨t, ht⟩ := ih (chunkStep tr backend st c)
    refine ⟨buildRequest tr st.window c :: t, ?_⟩
    rw [ht]
    simp [chunkStep]

lemma stepSums_length (start : ℕ) (cs : List (List Char)) :
    (stepSums start cs).length = cs.length := by
  induction cs generalizing start with
  | nil => simp [stepSums]
  | cons c cs ih =>
    rw [stepSums]
    simp [ih]

lemma stepSums_getD (cs : List (List Char)) :
    ∀ (start : ℕ) (i : ℕ), i < cs.length →
      (stepSums start cs).getD i 0 = start + ((cs.take (i + 1)).map List.length).sum := by
  induction cs with
  | nil =>
    intro start i hi
    simp at hi
  | cons c cs ih =>
    intro start i hi
    cases i with
    | zero =>
      rw [stepSums]
      simp
    | succ j =>
      rw [stepSums]
      simp only [List.getD_cons_succ, List.take_succ_cons, List.map_cons, List.sum_cons]
      rw [ih (start + c.length) j (by simpa using hi)]
      omega

lemma sum_take_mono (l : List ℕ) : ∀ i j : ℕ, i ≤ j →
    (l.take i).sum ≤ (l.take j).sum := by
  induction l with
  | nil =>
    intro i j _
    simp
  | cons a t ih =>
    intro i j hij
    cases i with
    | zero => simp
    | succ i2 =>
      cases j with
      | zero => omega
      | succ j2 =>
        simp only [List.take_succ_cons, List.sum_cons]
        have := ih i2 j2 (by omega)
        omega

lemma joinSep_length_ge (sep : List Char) (w : List (List Char)) :
    (w.map List.length).sum ≤ (joinSep sep w).length := by
  induction w with
  | nil => simp [joinSep]
  | cons p rest ih =>
    cases rest with
    | nil => simp [joinSep]
    | cons q t =>
      rw [joinSep]
      simp only [List.map_cons, List.sum_cons, List.length_append]
      have := ih
      simp only [List.map_cons, List.sum_cons] at this
      omega

lemma splitGo_no_nl : ∀ (s acc : List Char), (∀ c ∈ s, c ≠ '\n') →
    splitGo acc s = [acc.reverse ++ s] := by
  intro s
  induction s with
  | nil =>
    intro acc _
    simp [splitGo]
  | cons a t ih =>
    intro acc h
    have ha : a ≠ '\n' := h a (List.mem_cons_self a t)
    cases t with
    | nil => simp [splitGo]
    | cons b t2 =>
      rw [splitGo, if_neg (by simp [ha])]
      rw [ih (a :: acc) (fun c hc => h c (List.mem_cons_of_mem a hc))]
      simp

lemma pyStrip_replicate (n : ℕ) : pyStrip (List.replicate n 'a') = List.replicate n 'a' := by
  have hdrop : ∀ m : ℕ,
      (List.replicate m 'a').dropWhile Char.isWhitespace = List.replicate m 'a' := by
    intro m
    cases m with
    | zero => simp
    | succ k =>
      rw [List.replicate_succ, List.dropWhile_cons]
      simp
  rw [pyStrip, hdrop, List.reverse_replicate, hdrop, List.reverse_replicate]

lemma extract_replicate (n : ℕ) :
    extract_summary_paragraphs (List.replicate n 'a') = [List.replicate n 'a'] := by
  rw [extract_summary_paragraphs,
    splitGo_no_nl (List.replicate n 'a') [] (by
      intro c hc
      rw [List.eq_of_mem_replicate hc]
      decide)]
  simp [pyStrip_replicate]

lemma chunks_xy : chunks 1 ['x', 'y'] = [['x'], ['y']] := by
  rw [chunks_cons 1 _ one_pos (by decide), chunks_cons 1 _ one_pos (by decide)]
  simp [chunks_nil]

lemma chunks_repl250 : chunks 100 (List.replicate 250 'a')
    = [List.replicate 100 'a', List.replicate 100 'a', List.replicate 50 'a'] := by
  rw [chunks_cons 100 _ (by norm_num) (repl_ne_nil (by norm_num) 'a'),
    List.take_replicate, List.drop_replicate]
  norm_num
  rw [chunks_cons 100 _ (by norm_num) (repl_ne_nil (by norm_num) 'a'),
    List.take_replicate, List.drop_replicate]
  norm_num
  rw [chunks_cons 100 _ (by norm_num) (repl_ne_nil (by norm_num) 'a'),
    List.take_replicate, List.drop_replicate]
  norm_num
  exact chunks_nil 100

lemma process_text_go_stall (msg : List Char)
    (hto : containsSub timeoutMarker msg = false)
    (hrl : containsSub rateLimitMarker msg = true)
    (hd : extractRetryDelay msg = none) :
    ∀ (n a : ℕ) (d : List ℕ) (eb : Option (List Char)),
      process_text_go (fun _ => .exc msg) n 0 a d eb = ⟨.running, a + n, d, 0⟩ := by
  intro n
  induction n with
  | zero =>
    intro a d eb
    simp [process_text_go, MAX_RETRIES]
  | succ k ih =>
    intro a d eb
    rw [process_text_go]
    simp only [hto, hrl, hd, MAX_RETRIES]
    rw [if_pos (by omega), if_neg (by simp), if_pos trivial]
    rw [ih (a + 1) d none]
    have : a + 1 + k = a + (k + 1) := by omega
    rw [this]

lemma bigPara_length : bigPara.length = 20001 := by
  rw [bigPara, List.length_replicate]

lemma extract_bigPara : extract_summary_paragraphs bigPara = [bigPara] := by
  rw [bigPara]
  exact extract_replicate 20001

lemma wu_bigPara (prev : List Para) :
    window_update prev bigPara = ([bigPara], []) := by
  have hne : bigPara.isEmpty = false := by
    rw [bigPara, List.isEmpty_replicate]
    rfl
  rw [window_update, if_neg (by rw [hne]; exact Bool.false_ne_true), extract_bigPara,
    evict_while_eq]
  have h0 : [bigPara].length - max_context_paragraphs = 0 := rfl
  rw [h0, List.drop_zero, List.take_zero]

lemma c3_step1 : chunkStep false c3Backend initState ['x']
    = ⟨[bigPara], [], [buildRequest false [] ['x']], 1, [1], [[]]⟩ := by
  have hb : c3Backend 0 (buildRequest false [] ['x']) = bigPara := by
    rw [c3Backend]
    exact if_pos rfl
  simp only [chunkStep, initState, List.length_nil]
  rw [hb, wu_bigPara]
  rfl

lemma summarize_progress (tr : Bool) (backend : ℕ → List Char → List Char)
    (C : ℕ) (text : List Char) :
    (summarize_document tr backend C text).progressEvents
      = stepSums 0 (chunks C text) := by
  have h := (runChunks_events tr backend (chunks C text) initState).1
  rw [summarize_document, flush_while]
  simpa [initState] using h

/-! ## Claim theorems -/

/-- C1 counterexample: with window `["A"]` and new summary `"B"`,
append-then-evict (as the claim states) yields window `["A", "B"]`, but
the code's update yields `["B"]` - the update replaces the window instead
of appending to it. -/
theorem C1_counterexample :
    window_update ["A".data] "B".data = (["B".data], [])
    ∧ specUpdate ["A".data] "B".data = (["A".data, "B".data], [])
    ∧ window_update ["A".data] "B".data ≠ specUpdate ["A".data] "B".data := by
  refine ⟨by decide, by decide, by decide⟩

/-- C1 amended: on a non-empty summary, the update discards the previous
window and replaces it with the paragraphs extracted from the new summary
alone, evicting (oldest first, in order) the overflow beyond the
configured maximum of that new list to output; the result does not depend
on the previous window. -/
theorem C1_amended : ∀ (prev : List Para) (s : List Char), s ≠ [] →
    window_update prev s
      = ((extract_summary_paragraphs s).drop
          ((extract_summary_paragraphs s).length - max_context_paragraphs),
        (extract_summary_paragraphs s).take
          ((extract_summary_paragraphs s).length - max_context_paragraphs)) := by
  intro prev s hs
  refine window_update_of_ne prev s ?_
  rw [List.isEmpty_iff]
  exact hs

/-- C1 amended, witness at a concrete input. -/
theorem C1_amended_witness : ("B".data ≠ ([] : List Char))
    ∧ window_update ["A".data] "B".data
      = ((extract_summary_paragraphs "B".data).drop
          ((extract_summary_paragraphs "B".data).length - max_context_paragraphs),
        (extract_summary_paragraphs "B".data).take
          ((extract_summary_paragraphs "B".data).length - max_context_paragraphs)) :=
  ⟨by decide, C1_amended ["A".data] "B".data (by decide)⟩

/-- C2 counterexample: first summary `"A\x5cn\x5cnB"` puts `["A", "B"]` in
the window; the second summary `"C"` replaces it, and the run's final
output is `["C"]` alone - paragraph `"A"` was added to the window but is
never written to output. -/
theorem C2_counterexample :
    (runChunks false c2Backend initState ((chunks 1 ['x', 'y']).take 1)).window
        = ["A".data, "B".data]
    ∧ (summarize_document false c2Backend 1 ['x', 'y']).out = ["C".data]
    ∧ "A".data ∉ (summarize_document false c2Backend 1 ['x', 'y']).out := by
  rw [summarize_document, chunks_xy]
  decide

/-- C2 amended: the paragraphs written to output are exactly the evicted
paragraphs of each update, in order, followed by the final window flush,
each written exactly once; paragraphs replaced out of the window by a
later update are never written. -/
theorem C2_amended : ∀ (tr : Bool) (backend : ℕ → List Char → List Char)
    (C : ℕ) (text : List Char),
    (summarize_document tr backend C text).out
      = (runChunks tr backend initState (chunks C text)).evTrace.flatten
        ++ (runChunks tr backend initState (chunks C text)).window := by
  intro tr b C text
  obtain ⟨t, ht, ho⟩ := runChunks_out_ev tr b (chunks C text) initState
  have hfl : (summarize_document tr b C text).out
      = (runChunks tr b initState (chunks C text)).out
        ++ (runChunks tr b initState (chunks C text)).window := rfl
  rw [hfl, ho, ht]
  simp [initState]

/-- C3 counterexample: after the first update the window holds one
20001-character paragraph; the second request is built from that untrimmed
window - its estimated size (20002 characters) exceeds every size constant
configured in the program (the largest is 20000), the window is not empty,
and nothing was evicted to output before the request was built. -/
theorem C3_counterexample :
    (runChunks false c3Backend initState ((chunks 1 ['x', 'y']).take 1)).window ≠ []
    ∧ (runChunks false c3Backend initState ((chunks 1 ['x', 'y']).take 1)).out = []
    ∧ 20000 <
        ((runChunks false c3Backend initState ((chunks 1 ['x', 'y']).take 1)).window.map
          List.length).sum + (['y'] : List Char).length
    ∧ (summarize_document false c3Backend 1 ['x', 'y']).requests.getD 1 []
        = buildRequest false
            (runChunks false c3Backend initState ((chunks 1 ['x', 'y']).take 1)).window ['y']
    ∧ 20000 < ((summarize_document false c3Backend 1 ['x', 'y']).requests.getD 1 []).length := by
  have htake : (chunks 1 ['x', 'y']).take 1 = [['x']] := by
    rw [chunks_xy]
    rfl
  have hone : runChunks false c3Backend initState [['x']]
      = chunkStep false c3Backend initState ['x'] := rfl
  have hst : runChunks false c3Backend initState ((chunks 1 ['x', 'y']).take 1)
      = ⟨[bigPara], [], [buildRequest false [] ['x']], 1, [1], [[]]⟩ := by
    rw [htake, hone, c3_step1]
  have hreq : (summarize_document false c3Backend 1 ['x', 'y']).requests
      = [buildRequest false [] ['x'], buildRequest false [bigPara] ['y']] := by
    rw [summarize_document, chunks_xy]
    have h2 : runChunks false c3Backend initState [['x'], ['y']]
        = chunkStep false c3Backend (chunkStep false c3Backend initState ['x']) ['y'] := rfl
    rw [h2, c3_step1]
    rfl
  have hb2 : buildRequest false [bigPara] ['y']
      = "[PREVIOUS_SUMMARY]\n\n".data ++ joinSep "\n\n".data [bigPara]
        ++ "\n\n".data ++ "[CURRENT_CHUNK]\n\n".data ++ ['y'] := rfl
  have hjs : joinSep "\n\n".data [bigPara] = bigPara := rfl
  refine ⟨?_, ?_, ?_, ?_, ?_⟩
  · rw [hst]
    exact List.cons_ne_nil bigPara []
  · rw [hst]
  · rw [hst]
    simp only [List.map_cons, List.map_nil, List.sum_cons, List.sum_nil, bigPara_length,
      List.length_cons, List.length_nil]
    omega
  · rw [hst, hreq]
    rfl
  · rw [hreq]
    simp only [List.getD_cons_succ, List.getD_cons_zero]
    rw [hb2, hjs]
    simp only [List.length_append, bigPara_length]
    omega

/-- C3 amended: no pre-request trimming exists - every request is built
from the entire current window joined with the current chunk, nothing is
evicted between the window update and the next request, and the request
length is at least the total length of all window paragraphs plus the
chunk, hence unbounded by any configured budget. -/
theorem C3_amended : ∀ (tr : Bool) (backend : ℕ → List Char → List Char)
    (st : RunState) (c : List Char),
    (chunkStep tr backend st c).requests = st.requests ++ [buildRequest tr st.window c]
    ∧ (st.window.map List.length).sum + c.length ≤ (buildRequest false st.window c).length := by
  intro tr b st c
  refine ⟨rfl, ?_⟩
  have h := joinSep_length_ge "\n\n".data st.window
  have hsep : ("\n\n".data : List Char) = ['\n', '\n'] := rfl
  rw [hsep] at h
  have hb : buildRequest false st.window c
      = "[PREVIOUS_SUMMARY]\n\n".data ++ joinSep "\n\n".data st.window
        ++ "\n\n".data ++ "[CURRENT_CHUNK]\n\n".data ++ c := rfl
  rw [hb, hsep]
  simp only [List.length_append]
  omega

/-- C4: with a backend that raises a timeout RequestException on every
attempt, the loop makes exactly 5 attempts (sleeping 5 seconds before each
retry), and then - because Python 3 deletes the variable bound by
`except ... as e` at the end of each except block - line 174's `str(e)`
raises UnboundLocalError instead of the timeout-tagged terminal error the
claim describes.  The same state is reached with any larger fuel: the loop
has resolved. -/
theorem C4_code_eval :
    process_text (fun _ => Outcome.exc timeoutMarker) 5
      = ⟨.err .unboundLocalE, 5, [5, 5, 5, 5, 5], 5⟩
    ∧ process_text (fun _ => Outcome.exc timeoutMarker) 1000
      = ⟨.err .unboundLocalE, 5, [5, 5, 5, 5, 5], 5⟩ := by
  refine ⟨by decide, by decide⟩

/-- C5: when every attempt raises a RequestException carrying the
rate-limit marker but no extractable delay, the loop never resolves - for
any fuel it is still running, having consumed one attempt per fuel unit
with `retry_count` still 0 and no sleeps - instead of failing immediately;
whereas when the marker with no delay arrives in a successfully returned
summary text, the code does fail immediately with the unknown-error
exception after one attempt and no retry, as the claim describes. -/
theorem C5_code_eval :
    (∀ n : ℕ, process_text (fun _ => Outcome.exc rlNoDelayMsg) n = ⟨.running, n, [], 0⟩)
    ∧ process_text (fun _ => Outcome.success rlNoDelayMsg) 1000
      = ⟨.err .unknownErrorMsg, 1, [], 0⟩ := by
  constructor
  · intro n
    have h := process_text_go_stall rlNoDelayMsg (by decide) (by decide) (by decide)
      n 0 [] none
    rw [process_text, h]
    rw [Nat.zero_add]
  · decide

/-- C6: for any text and any positive chunk size, the produced chunks
concatenate back to the text exactly, their number is the ceiling of
length over chunk size, every chunk is at most chunk-size long, and every
chunk except possibly the last is exactly chunk-size long. -/
theorem C6_segmenter : ∀ (C : ℕ) (s : List Char), 0 < C →
    (chunks C s).flatten = s
    ∧ (chunks C s).length = (s.length + C - 1) / C
    ∧ (∀ c ∈ chunks C s, c.length ≤ C)
    ∧ (∀ i, i + 1 < (chunks C s).length → ((chunks C s).getD i []).length = C) := by
  intro C s hC
  exact ⟨chunks_join C hC s, chunks_length C hC s, chunks_size_le C s, chunks_full C hC s⟩

/-- C6 witness at a concrete input. -/
theorem C6_segmenter_witness : 0 < 2
    ∧ ((chunks 2 ['a', 'b', 'c']).flatten = ['a', 'b', 'c']
      ∧ (chunks 2 ['a', 'b', 'c']).length = (['a', 'b', 'c'].length + 2 - 1) / 2
      ∧ (∀ c ∈ chunks 2 ['a', 'b', 'c'], c.length ≤ 2)
      ∧ (∀ i, i + 1 < (chunks 2 ['a', 'b', 'c']).length
          → ((chunks 2 ['a', 'b', 'c']).getD i []).length = 2)) :=
  ⟨by decide, C6_segmenter 2 ['a', 'b', 'c'] (by decide)⟩

/-- C7: on a non-empty input with positive chunk size, one progress value
is reported per chunk; the cursor after each chunk equals the sum of the
lengths of the chunks consumed so far; the reported percentages are
monotonically non-decreasing and reach exactly 100 on the last chunk; a
250-character document at chunk size 100 yields chunks of length
100, 100, 50 and reported progress 40, 80, 100. -/
theorem C7_progress : ∀ (tr : Bool) (backend : ℕ → List Char → List Char)
    (C : ℕ) (text : List Char), 0 < C → text ≠ [] →
    c7Claim tr backend C text
    ∧ (chunks 100 (List.replicate 250 'a')).map List.length = [100, 100, 50]
    ∧ progressPercents 250 (summarize_document tr backend 100 (List.replicate 250 'a'))
        = [40, 80, 100] := by
  intro tr b C text hC htext
  have hn : 0 < (chunks C text).length := by
    rw [chunks_cons C text hC htext]
    simp
  have htpos : (0 : ℚ) < (text.length : ℚ) := by
    have := List.length_pos.mpr htext
    exact_mod_cast this
  refine ⟨⟨?_, ?_, ?_, ?_⟩, ?_, ?_⟩
  · rw [summarize_progress, stepSums_length]
  · intro i hi
    rw [summarize_progress, stepSums_getD (chunks C text) 0 i hi, Nat.zero_add]
  · intro i j hij hj
    have hpq : (summarize_document tr b C text).progressEvents.getD i 0
        ≤ (summarize_document tr b C text).progressEvents.getD j 0 := by
      rw [summarize_progress, stepSums_getD (chunks C text) 0 i (by omega),
        stepSums_getD (chunks C text) 0 j hj, Nat.zero_add, Nat.zero_add,
        List.map_take, List.map_take]
      exact sum_take_mono ((chunks C text).map List.length) (i + 1) (j + 1)
        (by omega)
    rw [progressReport, progressReport]
    have hcast : ((summarize_document tr b C text).progressEvents.getD i 0 : ℚ)
        ≤ ((summarize_document tr b C text).progressEvents.getD j 0 : ℚ) := by
      exact_mod_cast hpq
    have hdiv := (div_le_div_iff_of_pos_right htpos).mpr hcast
    exact mul_le_mul_of_nonneg_right hdiv (by norm_num)
  · rw [summarize_progress, stepSums_getD (chunks C text) 0 _ (by omega)]
    have h1 : (chunks C text).length - 1 + 1 = (chunks C text).length := by omega
    rw [h1, List.take_length]
    have h2 : ((chunks C text).map List.length).sum = text.length := by
      rw [← List.length_flatten, chunks_join C hC text]
    rw [Nat.zero_add, h2, progressReport, div_self (ne_of_gt htpos)]
    norm_num
  · rw [chunks_repl250]
    simp only [List.map_cons, List.map_nil, List.length_replicate]
  · rw [progressPercents, summarize_progress, chunks_repl250]
    simp only [stepSums, List.length_replicate, List.map_cons, List.map_nil]
    rw [progressReport, progressReport, progressReport]
    norm_num

/-- C7 witness at a concrete input. -/
theorem C7_progress_witness : 0 < 1
    ∧ (['a'] : List Char) ≠ []
    ∧ (c7Claim false (fun _ _ => []) 1 ['a']
      ∧ (chunks 100 (List.replicate 250 'a')).map List.length = [100, 100, 50]
      ∧ progressPercents 250 (summarize_document false (fun _ _ => []) 100
          (List.replicate 250 'a')) = [40, 80, 100]) :=
  ⟨by decide, by decide, C7_progress false (fun _ _ => []) 1 ['a'] (by decide) (by decide)⟩

/-- C8: immediately after every window update - that is, after any prefix
of the chunk loop has run - the context window holds at most
`max_context_paragraphs` (3) paragraphs, for every backend, chunk size and
input. -/
theorem C8_window_bound : ∀ (tr : Bool) (backend : ℕ → List Char → List Char)
    (C : ℕ) (text : List Char) (i : ℕ),
    (runChunks tr backend initState ((chunks C text).take i)).window.length
      ≤ max_context_paragraphs := by
  intro tr b C text i
  exact runChunks_window_le tr b _ initState (by decide)

/-- C9: with a backend that always raises a rate-limit RequestException
with no extractable delay, the retry loop does not resolve within any
number of iterations - it makes one fresh attempt per iteration while
`retry_count` stays 0 - so it is not bounded by `max_attempts` attempts
and stalls forever. -/
theorem C9_code_eval : ∀ n : ℕ,
    (process_text (fun _ => Outcome.exc rlNoDelayMsg) n).result = ProcResult.running
    ∧ (process_text (fun _ => Outcome.exc rlNoDelayMsg) n).attempts = n
    ∧ (process_text (fun _ => Outcome.exc rlNoDelayMsg) n).retry_count = 0 := by
  intro n
  have h := process_text_go_stall rlNoDelayMsg (by decide) (by decide) (by decide)
    n 0 [] none
  rw [process_text, h]
  exact ⟨rfl, Nat.zero_add n, rfl⟩

/-- C10: on empty extracted input the run sends no backend request, writes
no paragraph, and reports no progress value, so the division by
`total_chars` is never evaluated. -/
theorem C10_empty_input : ∀ (tr : Bool) (backend : ℕ → List Char → List Char) (C : ℕ),
    (summarize_document tr backend C []).requests = []
    ∧ (summarize_document tr backend C []).out = []
    ∧ (summarize_document tr backend C []).progressEvents = []
    ∧ progressPercents 0 (summarize_document tr backend C []) = [] := by
  intro tr b C
  rw [summarize_document, chunks_nil]
  refine ⟨rfl, rfl, rfl, rfl⟩

end Summarizer
